import Mathlib

/-!
Verification development for the document-translator application
(`src/app.py`).  The Python program is shallowly embedded below:

* pure marshaling helpers (`process_pdf`, `process_image`, base64
  encoding, the OCR placeholder rewriting and the JSON export) are
  translated as Lean functions on `List Nat` (bytes), `String` and
  `List Char`;
* the external services (PDF rasterizer, OCR endpoint, chat endpoint)
  are modelled by explicit outcome values: a `DocRun` records, for one
  uploaded file, what the external world would answer at each stage;
* the Streamlit session state is an explicit `SessionState` record and
  the two `for idx, file in enumerate(...)` loops of
  `DocumentTranslator.main` become structurally recursive loop
  functions threading that record.
-/

namespace DocTranslator

/-- Character of the standard base64 alphabet at position `n` (`n < 64`),
used to embed Python's `base64.b64encode`. -/
def b64Char (n : Nat) : Char :=
  if n < 26 then Char.ofNat (65 + n)
  else if n < 52 then Char.ofNat (97 + (n - 26))
  else if n < 62 then Char.ofNat (48 + (n - 52))
  else if n = 62 then '+'
  else '/'

/-- Embedding of `base64.b64encode(...)` on a byte list (bytes are `Nat`
values below 256), producing the character list of the encoded form,
including `=` padding. -/
def base64encodeL : List Nat → List Char
  | b1 :: b2 :: b3 :: rest =>
    b64Char (b1 / 4) :: b64Char ((b1 % 4) * 16 + b2 / 16) ::
      b64Char ((b2 % 16) * 4 + b3 / 64) :: b64Char (b3 % 64) :: base64encodeL rest
  | [b1, b2] => [b64Char (b1 / 4), b64Char ((b1 % 4) * 16 + b2 / 16), b64Char ((b2 % 16) * 4), '=']
  | [b1] => [b64Char (b1 / 4), b64Char ((b1 % 4) * 16), '=', '=']
  | [] => []

/-- Embedding of `base64.b64encode(file_bytes).decode("utf-8")`. -/
def base64encode (bytes : List Nat) : String :=
  String.mk (base64encodeL bytes)

/-- Tagged payload descriptor sent to the OCR endpoint: the dictionaries
built at `src/app.py` lines 76-79 and 95-98 (`"type": "document_url"`
with a `document_url` data URI, or `"type": "image_url"` with an
`image_url` data URI). -/
inductive DocPayload where
  | document_url (url : String)
  | image_url (url : String)
deriving DecidableEq

/-- Value of the `"type"` key of a payload dictionary. -/
def docTag : DocPayload → String
  | .document_url _ => "document_url"
  | .image_url _ => "image_url"

/-- Result dictionary returned by `process_pdf` / `process_image`:
keys `document`, `preview_src`, `file_bytes` (the latter is `None` for
PDFs, hence an `Option`). -/
structure IngestResult where
  document : DocPayload
  preview_src : List String
  file_bytes : Option (List Nat)
deriving DecidableEq

/-- Model of an already-opened PDF as `process_pdf` sees it after
`fitz.open`: the raw file bytes plus, for each page, the PNG bytes that
the external rasterizer (`page.get_pixmap(dpi=150).tobytes("png")`)
produces for that page.  The rasterizer is an external library, so its
per-page output is part of the input model. -/
structure PdfDoc where
  file_bytes : List Nat
  pages : List (List Nat)

/-- Embedding of `DocumentTranslator.process_pdf` (src/app.py lines
64-82): base64-encode every rasterized page into a `data:image/png`
preview entry, and the whole original byte stream into a
`document_url` payload; `file_bytes` is returned as `None`. -/
def process_pdf (doc : PdfDoc) : IngestResult :=
  { document := .document_url ("data:application/pdf;base64," ++ base64encode doc.file_bytes)
    preview_src := doc.pages.map (fun img_bytes => "data:image/png;base64," ++ base64encode img_bytes)
    file_bytes := none }

/-- Embedding of `DocumentTranslator.process_image` (src/app.py lines
84-101): `mime_type` is the uploaded file's declared type
(`source.type`), the bytes are encoded once and the same encoded string
is used for the payload and the singleton preview; raw bytes are
retained in `file_bytes`. -/
def process_image (file_bytes : List Nat) (mime_type : String) : IngestResult :=
  let encoded_image := base64encode file_bytes
  { document := .image_url ("data:" ++ mime_type ++ ";base64," ++ encoded_image)
    preview_src := ["data:" ++ mime_type ++ ";base64," ++ encoded_image]
    file_bytes := some file_bytes }

/-- One inline image of an OCR response page.  `base64` is the encoded
image data; it is an `Option` because the code guards the access with
`hasattr(image, 'base64')`. -/
structure OcrImage where
  base64 : Option String

/-- One page of an OCR response: its Markdown body and its attached
images.  `images` is an `Option` because the code guards with
`hasattr(page, 'images')`. -/
structure OcrPage where
  markdown : String
  images : Option (List OcrImage)

/-- Outcome of the external `client.ocr.process` call: either a list of
pages, or a raised exception carrying a message. -/
inductive OcrCallResult where
  | success (pages : List OcrPage)
  | failure (msg : String)

/-- Outcome of the external `client.chat.complete` call as a function of
the single user prompt sent: either the completion content
(`response.choices[0].message.content`) or a raised exception message.
Modelling it as a function of the prompt lets theorems state exactly
which text the translation stage receives. -/
inductive ChatOutcome where
  | success (content : String)
  | failure (msg : String)

/-- Scanning core of Python `str.replace(pat, rep)` on character
lists: every non-overlapping occurrence of `pat` is replaced left to
right, and after a match the scan resumes past the matched portion.
The extra `fuel` argument only makes the recursion structural; it is
called with the input's length, which the scan can never exhaust, so
the `0` fallback is dead code.  (The `pat = []` corner, where Python
interleaves `rep` everywhere, is never reached here: every pattern
passed below is nonempty.) -/
def pyReplaceGo (pat rep : List Char) : Nat → List Char → List Char
  | _, [] => []
  | 0, l => l
  | fuel + 1, c :: rest =>
    if pat.isPrefixOf (c :: rest) ∧ pat ≠ [] then
      rep ++ pyReplaceGo pat rep fuel (rest.drop (pat.length - 1))
    else
      c :: pyReplaceGo pat rep fuel rest

/-- Embedding of Python `str.replace(pat, rep)` on character lists. -/
def pyReplaceL (pat rep l : List Char) : List Char :=
  pyReplaceGo pat rep l.length l

/-- Placeholder token `f"img-{idx}.jpeg"` from src/app.py line 120, as a
character list (the extension is hardcoded to `jpeg` in the code). -/
def tokL (idx : Nat) : List Char :=
  "img-".data ++ (toString idx).data ++ ".jpeg".data

/-- Replacement string `f"data:image/jpeg;base64,{base64_image}"` from
src/app.py line 121 (the MIME type is hardcoded to `image/jpeg`). -/
def dataRefL (base64_image : String) : List Char :=
  "data:image/jpeg;base64,".data ++ base64_image.data

/-- The inner `for idx, image in enumerate(page.images)` loop of
`ocr_processing` (src/app.py lines 116-122): for each image that has a
`base64` attribute, run `str.replace` of the hardcoded token by the
data reference on the current Markdown content. -/
def imgLoop : Nat → List OcrImage → List Char → List Char
  | _, [], markdown_content => markdown_content
  | idx, image :: rest, markdown_content =>
    imgLoop (idx + 1) rest
      (match image.base64 with
       | some base64_image => pyReplaceL (tokL idx) (dataRefL base64_image) markdown_content
       | none => markdown_content)

/-- Per-page processing of `ocr_processing` (src/app.py lines 113-123):
start from `page.markdown`; if the page has a nonempty `images`
attribute, run the image-replacement loop over the enumerated images. -/
def processPage (page : OcrPage) : String :=
  match page.images with
  | none => page.markdown
  | some imgs =>
    if imgs.isEmpty then page.markdown
    else String.mk (imgLoop 0 imgs page.markdown.data)

/-- Embedding of `DocumentTranslator.ocr_processing` (src/app.py lines
103-126) as a function of the external call's outcome: on an exception
it returns `"OCR Error: " ++ msg` (the `except` branch); on success it
joins the processed pages with a blank line and falls back to the
sentinel `"No result found."` exactly when the joined string is falsy
(empty), embedding `"\n\n".join(processed_pages) or "No result found."`. -/
def ocr_processing (call : OcrCallResult) : String :=
  match call with
  | .failure msg => "OCR Error: " ++ msg
  | .success pages =>
    let joined := String.intercalate "\n\n" (pages.map processPage)
    if joined = "" then "No result found." else joined

/-- Embedding of `DocumentTranslator.translate_content` (src/app.py
lines 128-139): build the prompt f-string around `text`, consult the
external chat outcome for that prompt, and on an exception return
`"Translation Error: " ++ msg` (the `except` branch). -/
def translate_content (chat : String → ChatOutcome) (text target_language : String) : String :=
  match chat ("Translate to " ++ target_language ++ " preserving formatting and images:\n\n" ++ text) with
  | .success content => content
  | .failure msg => "Translation Error: " ++ msg

/-- Outcome of the ingestion expression
`self.process_pdf(file) if self.file_type == "PDF" else self.process_image(file)`
(src/app.py line 201): either the produced result dictionary, or an
exception raised while reading/parsing the upload (e.g. `fitz.open` on
malformed bytes), which the surrounding `try` catches. -/
inductive IngestOutcome where
  | ok (r : IngestResult)
  | raise (msg : String)

/-- True exactly when ingestion produced a result instead of raising. -/
def ingestOk : IngestOutcome → Bool
  | .ok _ => true
  | .raise _ => false

/-- External behaviour of the world for one uploaded file: the outcome
of its ingestion, of its `client.ocr.process` call (consulted only when
ingestion succeeded) and of its `client.chat.complete` call as a
function of the prompt. -/
structure DocRun where
  ingest : IngestOutcome
  ocr : OcrCallResult
  chat : String → ChatOutcome

/-- Entry of the `st.session_state.processing_steps` dictionary:
`{"ocr_done": ..., "translation_done": ...}`. -/
structure Steps where
  ocr_done : Bool
  translation_done : Bool
deriving DecidableEq

/-- Dictionary lookup on the insertion-ordered association list that
models `st.session_state.processing_steps`. -/
def lookupStep : List (Nat × Steps) → Nat → Option Steps
  | [], _ => none
  | (k, v) :: rest, i => if k = i then some v else lookupStep rest i

/-- Dictionary assignment `processing_steps[idx] = value`. -/
def setStep : List (Nat × Steps) → Nat → Steps → List (Nat × Steps)
  | [], i, s => [(i, s)]
  | (k, v) :: rest, i, s => if k = i then (k, s) :: rest else (k, v) :: setStep rest i s

/-- The four index-aligned components of `st.session_state` used by the
pipeline (src/app.py lines 38-46). -/
structure SessionState where
  ocr_results : List String
  translation_results : List String
  preview_src : List (List String)
  processing_steps : List (Nat × Steps)

/-- State after the explicit reset at src/app.py lines 190-193. -/
def resetState : SessionState :=
  { ocr_results := []
    translation_results := []
    preview_src := []
    processing_steps := [] }

/-- Body of the OCR loop (src/app.py lines 196-219) for one document at
index `idx`: if ingestion raises, the `except` branch runs `continue`
and the state is unchanged; otherwise `ocr_processing` (which never
raises) is run on the payload, its string result and the preview are
appended, and `processing_steps[idx]` is set. -/
def ocrStep (st : SessionState) (idx : Nat) (d : DocRun) : SessionState :=
  match d.ingest with
  | .raise _ => st
  | .ok r =>
    let ocr_result := ocr_processing d.ocr
    { st with
      ocr_results := st.ocr_results ++ [ocr_result]
      preview_src := st.preview_src ++ [r.preview_src]
      processing_steps := setStep st.processing_steps idx ⟨true, false⟩ }

/-- The OCR loop `for idx, file in enumerate(self.uploaded_files)`
starting at index `idx`. -/
def ocrLoop : Nat → List DocRun → SessionState → SessionState
  | _, [], st => st
  | idx, d :: rest, st => ocrLoop (idx + 1) rest (ocrStep st idx d)

/-- The whole OCR phase of `main`: reset, then the loop from index 0. -/
def ocrPhase (docs : List DocRun) : SessionState :=
  ocrLoop 0 docs resetState

/-- Body of the translation loop (src/app.py lines 222-248) for one
document at index `idx`: skip when `idx >= len(ocr_results)`; otherwise
read `ocr_results[idx]` (in range thanks to the guard), translate it
(`translate_content` never raises), append the translated string, and
then perform `processing_steps[idx]["translation_done"] = True`, whose
`KeyError` — possible when an earlier ingestion failure shifted the
positions — is caught by the surrounding `except` after the append has
already happened. -/
def translationStep (target_language : String) (st : SessionState) (idx : Nat) (d : DocRun) : SessionState :=
  if idx ≥ st.ocr_results.length then st
  else
    let ocr_text := st.ocr_results.getD idx ""
    let translated := translate_content d.chat ocr_text target_language
    let st' := { st with translation_results := st.translation_results ++ [translated] }
    match lookupStep st'.processing_steps idx with
    | some s => { st' with processing_steps := setStep st'.processing_steps idx ⟨s.ocr_done, true⟩ }
    | none => st'

/-- The translation loop `for idx, file in enumerate(self.uploaded_files)`
starting at index `idx`. -/
def translationLoop (target_language : String) : Nat → List DocRun → SessionState → SessionState
  | _, [], st => st
  | idx, d :: rest, st => translationLoop target_language (idx + 1) rest (translationStep target_language st idx d)

/-- Both phases of one "Process Documents" run of
`DocumentTranslator.main` (after the upload/API-key guards): the OCR
loop over the batch followed by the translation loop over the same
batch. -/
def runBatch (target_language : String) (docs : List DocRun) : SessionState :=
  translationLoop target_language 0 docs (ocrPhase docs)

/-- Number of documents of a batch whose ingestion succeeds. -/
def countIngestOk (docs : List DocRun) : Nat :=
  (docs.filter (fun d => ingestOk d.ingest)).length

/-- Preview sequence a document contributes when its ingestion
succeeded (unused default for the raise case). -/
def previewOf (d : DocRun) : List String :=
  match d.ingest with
  | .ok r => r.preview_src
  | .raise _ => []

/-- Modelled from the spec: the spec's §4.2 wording "replace the first
remaining occurrence of its placeholder token" — replace only the first
(leftmost) occurrence of `pat` and leave the rest of the text
untouched.  This is the comparison definition for the refinement claim
about placeholder rewriting; the code itself uses `str.replace`. -/
def replaceFirstL (pat rep : List Char) : List Char → List Char
  | [] => []
  | c :: rest =>
    if pat.isPrefixOf (c :: rest) ∧ pat ≠ [] then
      rep ++ rest.drop (pat.length - 1)
    else
      c :: replaceFirstL pat rep rest

/-- Modelled from the spec: per-page processing as the claim words it,
replacing only the first remaining occurrence of each enumerated
image's placeholder token. -/
def imgLoopFirst : Nat → List OcrImage → List Char → List Char
  | _, [], markdown_content => markdown_content
  | idx, image :: rest, markdown_content =>
    imgLoopFirst (idx + 1) rest
      (match image.base64 with
       | some base64_image => replaceFirstL (tokL idx) (dataRefL base64_image) markdown_content
       | none => markdown_content)

/-- Modelled from the spec: `recognize` with the claim's
first-occurrence replacement policy, otherwise identical to
`ocr_processing`. -/
def specRecognizeFirst (call : OcrCallResult) : String :=
  match call with
  | .failure msg => "OCR Error: " ++ msg
  | .success pages =>
    let joined := String.intercalate "\n\n"
      (pages.map (fun page =>
        match page.images with
        | none => page.markdown
        | some imgs =>
          if imgs.isEmpty then page.markdown
          else String.mk (imgLoopFirst 0 imgs page.markdown.data)))
    if joined = "" then "No result found." else joined

/-- Pieces of a character list between consecutive non-overlapping
occurrences of `pat`, scanning left to right (the list of pieces is
always nonempty).  `pyReplaceL pat rep` is `intercalateL rep` of these
pieces, which is the characterisation "every occurrence is replaced". -/
def splitOnL (pat : List Char) : List Char → List (List Char)
  | [] => [[]]
  | c :: rest =>
    if pat.isPrefixOf (c :: rest) ∧ pat ≠ [] then
      [] :: splitOnL pat (rest.drop (pat.length - 1))
    else
      match splitOnL pat rest with
      | piece :: more => (c :: piece) :: more
      | [] => [[c]]
termination_by l => l.length
decreasing_by
  · simp only [List.length_drop, List.length_cons]
    omega
  · simp only [List.length_cons]
    omega

/-- Join a list of pieces with a separator between consecutive pieces. -/
def intercalateL (sep : List Char) : List (List Char) → List Char
  | [] => []
  | [piece] => piece
  | piece :: more => piece ++ sep ++ intercalateL sep more

/-- Lowercase hexadecimal digit character for `n < 16`, as produced by
Python's `'\u{0:04x}'.format` fallback of the JSON encoder. -/
def hexDigitChar (n : Nat) : Char :=
  if n < 10 then Char.ofNat (48 + n) else Char.ofNat (87 + n)

/-- Escaping of one character inside a JSON string literal exactly as
`json.dumps(..., ensure_ascii=False)` produces it: the two mandatory
escapes, the five short control escapes, `\u00xx` for the remaining
control characters, and every other character verbatim. -/
def escChar (c : Char) : List Char :=
  if c = '"' then ['\\', '"']
  else if c = '\\' then ['\\', '\\']
  else if c = '\n' then ['\\', 'n']
  else if c = '\r' then ['\\', 'r']
  else if c = '\t' then ['\\', 't']
  else if c = Char.ofNat 8 then ['\\', 'b']
  else if c = Char.ofNat 12 then ['\\', 'f']
  else if c.toNat < 32 then
    ['\\', 'u', '0', '0', hexDigitChar (c.toNat / 16), hexDigitChar (c.toNat % 16)]
  else [c]

/-- Body of a JSON string literal for the character list `s`. -/
def jsonEscape : List Char → List Char
  | [] => []
  | c :: rest => escChar c ++ jsonEscape rest

/-- Opening brace character (written via its code point). -/
def lbrace : Char := Char.ofNat 123

/-- Closing brace character (written via its code point). -/
def rbrace : Char := Char.ofNat 125

/-- Embedding of `json.dumps({"ocr_result": s}, ensure_ascii=False,
indent=2)` from `display_results` (src/app.py line 156): brace, newline,
two-space indent, the quoted key, colon-space, the quoted escaped
value, newline, closing brace. -/
def dumpsExportL (s : List Char) : List Char :=
  lbrace :: '\n' :: ' ' :: ' ' :: '"' ::
    ("ocr_result".data ++ ('"' :: ':' :: ' ' :: '"' ::
      (jsonEscape s ++ ('"' :: '\n' :: [rbrace]))))

/-- Numeric value of one hexadecimal digit character, accepting both
cases as `json.loads` does. -/
def hexVal (c : Char) : Option Nat :=
  if '0' ≤ c ∧ c ≤ '9' then some (c.toNat - 48)
  else if 'a' ≤ c ∧ c ≤ 'f' then some (c.toNat - 87)
  else if 'A' ≤ c ∧ c ≤ 'F' then some (c.toNat - 55)
  else none

/-- Decoding of a one-character JSON escape (`\"`, `\\`, `\/`, `\n`,
`\t`, `\r`, `\b`, `\f`). -/
def escDecode (e : Char) : Option Char :=
  if e = '"' then some '"'
  else if e = '\\' then some '\\'
  else if e = '/' then some '/'
  else if e = 'n' then some '\n'
  else if e = 't' then some '\t'
  else if e = 'r' then some '\r'
  else if e = 'b' then some (Char.ofNat 8)
  else if e = 'f' then some (Char.ofNat 12)
  else none

/-- Parser for the body of a JSON string literal (after the opening
quote), in the manner of `json.loads`: returns the decoded content and
the input remaining after the closing quote.  Raw control characters
are rejected, `\uXXXX` escapes below the surrogate range are decoded. -/
def parseStrBody : List Char → Option (List Char × List Char)
  | [] => none
  | c :: rest =>
    if c = '"' then some ([], rest)
    else if c = '\\' then
      match rest with
      | [] => none
      | e :: rest2 =>
        if e = 'u' then
          match rest2 with
          | h1 :: h2 :: h3 :: h4 :: rest3 =>
            match hexVal h1, hexVal h2, hexVal h3, hexVal h4 with
            | some a, some b, some c2, some d =>
              let n := ((a * 16 + b) * 16 + c2) * 16 + d
              if n < 55296 then
                match parseStrBody rest3 with
                | some (sres, r) => some (Char.ofNat n :: sres, r)
                | none => none
              else none
            | _, _, _, _ => none
          | _ => none
        else
          match escDecode e with
          | some dc =>
            match parseStrBody rest2 with
            | some (sres, r) => some (dc :: sres, r)
            | none => none
          | none => none
    else if c.toNat < 32 then none
    else
      match parseStrBody rest with
      | some (sres, r) => some (c :: sres, r)
      | none => none

/-- Whitespace as the JSON grammar allows between tokens. -/
def isWsChar (c : Char) : Bool :=
  (c == ' ') || (c == '\n') || (c == '\t') || (c == '\r')

/-- Skip insignificant JSON whitespace. -/
def skipWs : List Char → List Char
  | [] => []
  | c :: rest => if isWsChar c then skipWs rest else c :: rest

/-- Consume one expected character. -/
def expectChar (c : Char) : List Char → Option (List Char)
  | [] => none
  | x :: rest => if x = c then some rest else none

/-- Parser for the exported JSON document, in the manner of
`json.loads` restricted to the shape `display_results` produces: a
single-key object whose value is a string; returns the decoded value
of the `"ocr_result"` field. -/
def parseExport (l : List Char) : Option (List Char) :=
  match expectChar lbrace (skipWs l) with
  | none => none
  | some r1 =>
    match expectChar '"' (skipWs r1) with
    | none => none
    | some r2 =>
      match parseStrBody r2 with
      | none => none
      | some (key, r3) =>
        match expectChar ':' (skipWs r3) with
        | none => none
        | some r4 =>
          match expectChar '"' (skipWs r4) with
          | none => none
          | some r5 =>
            match parseStrBody r5 with
            | none => none
            | some (value, r6) =>
              match expectChar rbrace (skipWs r6) with
              | none => none
              | some r7 =>
                if skipWs r7 = [] ∧ key = "ocr_result".data then some value else none

/-- Ingestion result used by concrete batch runs in the theorems. -/
def demoIngest : IngestResult :=
  { document := .image_url "data:image/png;base64,AAAA"
    preview_src := ["data:image/png;base64,AAAA"]
    file_bytes := some [0, 0, 0] }

/-- Chat oracle used by concrete batch runs in the theorems. -/
def demoChat : String → ChatOutcome := fun _ => .success "bonjour"

/-- Batch for the degrade-not-abort run: document 0's OCR call raises,
document 1's succeeds. -/
def c1Docs : List DocRun :=
  [⟨.ok demoIngest, .failure "boom", demoChat⟩,
   ⟨.ok demoIngest, .success [⟨"hello", none⟩], demoChat⟩]

/-- Batch for the ingestion-failure run: document 0's ingestion raises
before any OCR attempt, document 1 succeeds with OCR text "hello". -/
def c3Docs : List DocRun :=
  [⟨.raise "cannot open broken.pdf", .success [], demoChat⟩,
   ⟨.ok demoIngest, .success [⟨"hello", none⟩], demoChat⟩]

/-- Batch of two fully successful documents. -/
def c4Docs : List DocRun :=
  [⟨.ok demoIngest, .success [⟨"alpha", none⟩], demoChat⟩,
   ⟨.ok demoIngest, .success [⟨"beta", none⟩], demoChat⟩]

/-- Batch whose single document ingests fine but gets zero OCR pages. -/
def c5Docs : List DocRun :=
  [⟨.ok demoIngest, .success [], demoChat⟩]

/-- Zero-page PDF model: valid bytes, no pages to rasterize. -/
def c9Pdf : PdfDoc := { file_bytes := [37, 80, 68, 70], pages := [] }

/-- Batch whose single document is the successfully ingested zero-page
PDF. -/
def c9Docs : List DocRun :=
  [⟨.ok (process_pdf c9Pdf), .success [⟨"text", none⟩], demoChat⟩]

/-- Replacement of every occurrence of `pat` by `rep`, phrased
declaratively: split the text at the occurrences of `pat` and rejoin
the pieces with `rep`.  This is the comparison semantics for the
amended placeholder-rewriting statement. -/
def replaceEveryL (pat rep l : List Char) : List Char :=
  intercalateL rep (splitOnL pat l)

/-- Per-image loop of the amended statement: for each enumerated image
with a `base64` attribute, replace every occurrence of the hardcoded
token `img-{idx}.jpeg` by the `data:image/jpeg` reference, via the
declarative split-and-rejoin semantics. -/
def imgLoopEvery : Nat → List OcrImage → List Char → List Char
  | _, [], markdown_content => markdown_content
  | idx, image :: rest, markdown_content =>
    imgLoopEvery (idx + 1) rest
      (match image.base64 with
       | some base64_image => replaceEveryL (tokL idx) (dataRefL base64_image) markdown_content
       | none => markdown_content)

/-- Per-page processing under the amended statement's declarative
replace-every-occurrence semantics. -/
def processPageEvery (page : OcrPage) : String :=
  match page.images with
  | none => page.markdown
  | some imgs =>
    if imgs.isEmpty then page.markdown
    else String.mk (imgLoopEvery 0 imgs page.markdown.data)

/-- OCR response page whose Markdown mentions its single image's
placeholder twice. -/
def c2Page : OcrPage :=
  { markdown := "img-0.jpeg and img-0.jpeg", images := some [⟨some "QUJD"⟩] }

end DocTranslator

namespace DocTranslator

theorem ocrStep_translation (st : SessionState) (idx : Nat) (d : DocRun) :
    (ocrStep st idx d).translation_results = st.translation_results := by
  cases h : d.ingest <;> simp [ocrStep, h]

theorem ocrLoop_translation :
    ∀ (docs : List DocRun) (idx : Nat) (st : SessionState),
      (ocrLoop idx docs st).translation_results = st.translation_results := by
  intro docs
  induction docs with
  | nil => intro idx st; rfl
  | cons d rest ih =>
    intro idx st
    rw [ocrLoop, ih, ocrStep_translation]

theorem countIngestOk_cons (d : DocRun) (rest : List DocRun) :
    countIngestOk (d :: rest) =
      (if ingestOk d.ingest then 1 else 0) + countIngestOk rest := by
  simp only [countIngestOk, List.filter_cons]
  split
  · simp
    omega
  · simp

theorem countIngestOk_le (docs : List DocRun) : countIngestOk docs ≤ docs.length :=
  List.length_filter_le _ _

theorem ocrLoop_lengths :
    ∀ (docs : List DocRun) (idx : Nat) (st : SessionState),
      (ocrLoop idx docs st).ocr_results.length =
        st.ocr_results.length + countIngestOk docs ∧
      (ocrLoop idx docs st).preview_src.length =
        st.preview_src.length + countIngestOk docs := by
  intro docs
  induction docs with
  | nil => intro idx st; simp [ocrLoop, countIngestOk]
  | cons d rest ih =>
    intro idx st
    rw [ocrLoop]
    rcases ih (idx + 1) (ocrStep st idx d) with ⟨h1, h2⟩
    rw [h1, h2, countIngestOk_cons]
    cases h : d.ingest with
    | ok r => simp [ocrStep, h, ingestOk] ; omega
    | raise m => simp [ocrStep, h, ingestOk]

theorem ocrLoop_all_ok :
    ∀ (docs : List DocRun) (idx : Nat) (st : SessionState),
      (∀ x ∈ docs, ingestOk x.ingest = true) →
      (ocrLoop idx docs st).ocr_results =
        st.ocr_results ++ docs.map (fun d => ocr_processing d.ocr) ∧
      (ocrLoop idx docs st).preview_src =
        st.preview_src ++ docs.map previewOf := by
  intro docs
  induction docs with
  | nil => intro idx st _; simp [ocrLoop]
  | cons d rest ih =>
    intro idx st hall
    have hd : ingestOk d.ingest = true := hall d (List.mem_cons_self d rest)
    rw [ocrLoop]
    rcases ih (idx + 1) (ocrStep st idx d)
      (fun x hx => hall x (List.mem_cons_of_mem d hx)) with ⟨h1, h2⟩
    cases h : d.ingest with
    | raise m => rw [h] at hd; simp [ingestOk] at hd
    | ok r =>
      constructor
      · rw [h1]
        simp [ocrStep, h, previewOf]
      · rw [h2]
        simp [ocrStep, h, previewOf]

/-- C1: for every document in a batch whose ingestion succeeds, if the
external OCR call raises an exception, `ocr_processing` returns the
error string `"OCR Error: " ++ msg` through the normal string channel
(it never raises), that string is stored at the document's position,
and the batch still processes every document (the stored sequence has
one entry per document). -/
theorem ocr_failure_degrades_and_batch_proceeds
    (docs : List DocRun) (i : Nat) (d : DocRun) (msg : String)
    (hall : ∀ x ∈ docs, ingestOk x.ingest = true)
    (hi : docs[i]? = some d) (hocr : d.ocr = .failure msg) :
    (ocrPhase docs).ocr_results[i]? = some ("OCR Error: " ++ msg) ∧
    (ocrPhase docs).ocr_results.length = docs.length := by
  have h := (ocrLoop_all_ok docs 0 resetState hall).1
  rw [ocrPhase] at *
  constructor
  · rw [h]
    simp [resetState, hi, hocr, ocr_processing]
  · rw [h]
    simp [resetState]

/-- Witness for C1 on a concrete two-document batch whose first
document's OCR call raises with message "boom". -/
theorem ocr_failure_degrades_witness :
    c1Docs[0]? = some ⟨.ok demoIngest, .failure "boom", demoChat⟩ ∧
    ((ocrPhase c1Docs).ocr_results[0]? = some ("OCR Error: " ++ "boom") ∧
     (ocrPhase c1Docs).ocr_results.length = 2) := by
  refine ⟨rfl, ?_⟩
  exact ocr_failure_degrades_and_batch_proceeds c1Docs 0
    ⟨.ok demoIngest, .failure "boom", demoChat⟩ "boom"
    (by
      intro x hx
      simp only [c1Docs, List.mem_cons, List.not_mem_nil, or_false] at hx
      rcases hx with h | h <;> subst h <;> rfl)
    rfl rfl

/-- C4: in a batch of `N` documents in which every ingestion completes
(and hence every OCR stage completes, successfully or with a degraded
error string), both `ocr_results` and `preview_src` have length `N`
after the OCR phase. -/
theorem ocr_phase_index_alignment
    (docs : List DocRun) (N : Nat)
    (hall : ∀ x ∈ docs, ingestOk x.ingest = true)
    (hN : docs.length = N) :
    (ocrPhase docs).ocr_results.length = N ∧
    (ocrPhase docs).preview_src.length = N := by
  rcases ocrLoop_all_ok docs 0 resetState hall with ⟨h1, h2⟩
  rw [ocrPhase] at *
  constructor
  · rw [h1]
    simp [resetState, hN]
  · rw [h2]
    simp [resetState, hN]

/-- Witness for C4 on a concrete fully successful two-document batch. -/
theorem ocr_phase_index_alignment_witness :
    c4Docs.length = 2 ∧
    ((ocrPhase c4Docs).ocr_results.length = 2 ∧
     (ocrPhase c4Docs).preview_src.length = 2) := by
  refine ⟨rfl, ?_⟩
  exact ocr_phase_index_alignment c4Docs 2
    (by
      intro x hx
      simp only [c4Docs, List.mem_cons, List.not_mem_nil, or_false] at hx
      rcases hx with h | h <;> subst h <;> rfl)
    rfl

/-- C3 counterexample: in the concrete batch `c3Docs`, document 0's
ingestion raises before any OCR attempt, and the store does NOT guard
alignment: no placeholder entry is appended for document 0 (the length
stays 1, not 2) and document 1's OCR text "hello" is not retrievable
at its document index 1 either — it sits at position 0. -/
theorem ingestion_failure_breaks_alignment_cex :
    ¬ ((ocrPhase c3Docs).ocr_results.length = 2 ∨
       (ocrPhase c3Docs).ocr_results[1]? = some "hello") := by
  have hres : (ocrPhase c3Docs).ocr_results = ["hello"] := rfl
  rw [hres]
  simp

/-- C3 amended: a hard ingestion failure appends no placeholder entry —
a skipped document occupies no slot, so the stored sequences have one
entry per successfully ingested document only (document indices after
a failure shift down); `ocr_results` and `preview_src` do remain
mutually index-aligned, both having exactly `countIngestOk docs`
entries. -/
theorem ingestion_failure_skips_slot_but_keeps_mutual_alignment
    (docs : List DocRun) :
    (ocrPhase docs).ocr_results.length = countIngestOk docs ∧
    (ocrPhase docs).preview_src.length = countIngestOk docs := by
  rcases ocrLoop_lengths docs 0 resetState with ⟨h1, h2⟩
  rw [ocrPhase] at *
  constructor
  · rw [h1]
    simp [resetState]
  · rw [h2]
    simp [resetState]

/-- C6: for every image upload of declared MIME type `T`,
`process_image` produces an `image_url`-tagged payload whose embedded
MIME is `T`, reuses one and the same base64-encoded string for the
payload and for the singleton preview entry, and retains the raw
bytes in `file_bytes`. -/
theorem image_ingest_shape (bytes : List Nat) (T : String) :
    docTag (process_image bytes T).document = "image_url" ∧
    (process_image bytes T).document =
      .image_url ("data:" ++ T ++ ";base64," ++ base64encode bytes) ∧
    (process_image bytes T).preview_src =
      ["data:" ++ T ++ ";base64," ++ base64encode bytes] ∧
    (process_image bytes T).file_bytes = some bytes :=
  ⟨rfl, rfl, rfl, rfl⟩

/-- C7: for every parsed PDF, `process_pdf` produces a
`document_url`-tagged payload and exactly one preview entry per page
(so a 2-page PDF yields a preview sequence of length 2). -/
theorem pdf_ingest_shape (d : PdfDoc) :
    docTag (process_pdf d).document = "document_url" ∧
    (process_pdf d).preview_src.length = d.pages.length := by
  constructor
  · rfl
  · simp [process_pdf]

/-- C9: a zero-page PDF still ingests successfully — `process_pdf`
returns a result (it is a total function, nothing raises) whose preview
sequence is empty — and in a batch this empty preview is fed forward
into the store at the document's position as an empty-preview state,
not an error. -/
theorem zero_page_pdf_empty_preview
    (pd : PdfDoc) (docs : List DocRun) (i : Nat) (dr : DocRun)
    (hp : pd.pages = [])
    (hall : ∀ x ∈ docs, ingestOk x.ingest = true)
    (hi : docs[i]? = some dr)
    (hing : dr.ingest = .ok (process_pdf pd)) :
    (process_pdf pd).preview_src = [] ∧
    (ocrPhase docs).preview_src[i]? = some [] := by
  have hpre : (process_pdf pd).preview_src = [] := by
    simp [process_pdf, hp]
  refine ⟨hpre, ?_⟩
  have h := (ocrLoop_all_ok docs 0 resetState hall).2
  rw [ocrPhase, h]
  simp [resetState, hi, previewOf, hing, hpre]

/-- Witness for C9 on a concrete zero-page PDF in a singleton batch. -/
theorem zero_page_pdf_empty_preview_witness :
    c9Pdf.pages = [] ∧
    ((process_pdf c9Pdf).preview_src = [] ∧
     (ocrPhase c9Docs).preview_src[0]? = some []) := by
  refine ⟨rfl, ?_⟩
  exact zero_page_pdf_empty_preview c9Pdf c9Docs 0
    ⟨.ok (process_pdf c9Pdf), .success [⟨"text", none⟩], demoChat⟩
    rfl
    (by
      intro x hx
      simp only [c9Docs, List.mem_cons, List.not_mem_nil, or_false] at hx
      subst hx
      rfl)
    rfl rfl

theorem translationStep_fields (lang : String) (st : SessionState) (idx : Nat) (d : DocRun) :
    (translationStep lang st idx d).ocr_results = st.ocr_results ∧
    (translationStep lang st idx d).preview_src = st.preview_src ∧
    (translationStep lang st idx d).translation_results =
      (if idx ≥ st.ocr_results.length then st.translation_results
       else st.translation_results ++
         [translate_content d.chat (st.ocr_results.getD idx "") lang]) := by
  simp only [translationStep]
  by_cases h : idx ≥ st.ocr_results.length
  · rw [if_pos h, if_pos h]
    exact ⟨rfl, rfl, rfl⟩
  · rw [if_neg h, if_neg h]
    cases lookupStep st.processing_steps idx <;> exact ⟨rfl, rfl, rfl⟩

theorem translationLoop_ocr_preview (lang : String) :
    ∀ (docs : List DocRun) (idx : Nat) (st : SessionState),
      (translationLoop lang idx docs st).ocr_results = st.ocr_results ∧
      (translationLoop lang idx docs st).preview_src = st.preview_src := by
  intro docs
  induction docs with
  | nil => intro idx st; exact ⟨rfl, rfl⟩
  | cons d rest ih =>
    intro idx st
    rw [translationLoop]
    rcases ih (idx + 1) (translationStep lang st idx d) with ⟨h1, h2⟩
    rcases translationStep_fields lang st idx d with ⟨g1, g2, _⟩
    exact ⟨by rw [h1, g1], by rw [h2, g2]⟩

theorem translationLoop_length (lang : String) :
    ∀ (docs : List DocRun) (idx : Nat) (st : SessionState),
      (translationLoop lang idx docs st).translation_results.length =
        st.translation_results.length +
          (min st.ocr_results.length (idx + docs.length) -
           min st.ocr_results.length idx) := by
  intro docs
  induction docs with
  | nil =>
    intro idx st
    simp only [translationLoop, List.length_nil, Nat.add_zero]
    omega
  | cons d rest ih =>
    intro idx st
    rw [translationLoop, ih]
    rcases translationStep_fields lang st idx d with ⟨g1, _, g3⟩
    rw [g1, g3]
    by_cases h : idx ≥ st.ocr_results.length
    · rw [if_pos h]
      simp only [List.length_cons]
      omega
    · rw [if_neg h]
      simp only [List.length_append, List.length_cons, List.length_nil]
      omega

theorem translationLoop_prefix_preserved (lang : String) :
    ∀ (docs : List DocRun) (idx : Nat) (st : SessionState) (k : Nat),
      k < st.translation_results.length →
      (translationLoop lang idx docs st).translation_results[k]? =
        st.translation_results[k]? := by
  intro docs
  induction docs with
  | nil => intro idx st k _; rfl
  | cons d rest ih =>
    intro idx st k hk
    rw [translationLoop]
    rcases translationStep_fields lang st idx d with ⟨_, _, g3⟩
    by_cases h : idx ≥ st.ocr_results.length
    · rw [if_pos h] at g3
      rw [ih (idx + 1) _ k (by rw [g3]; exact hk), g3]
    · rw [if_neg h] at g3
      have hk' : k < (translationStep lang st idx d).translation_results.length := by
        rw [g3]
        simp only [List.length_append, List.length_cons, List.length_nil]
        omega
      rw [ih (idx + 1) _ k hk', g3, List.getElem?_append_left hk]

theorem translationLoop_getElem (lang : String) :
    ∀ (docs : List DocRun) (idx : Nat) (st : SessionState) (j : Nat) (d : DocRun),
      idx + docs.length ≤ st.ocr_results.length →
      docs[j]? = some d →
      (translationLoop lang idx docs st).translation_results[st.translation_results.length + j]? =
        some (translate_content d.chat (st.ocr_results.getD (idx + j) "") lang) := by
  intro docs
  induction docs with
  | nil =>
    intro idx st j d _ hj
    simp at hj
  | cons dd rest ih =>
    intro idx st j d hle hj
    have hidx : ¬ idx ≥ st.ocr_results.length := by
      simp only [List.length_cons] at hle
      omega
    rcases translationStep_fields lang st idx dd with ⟨g1, _, g3⟩
    rw [if_neg hidx] at g3
    rw [translationLoop]
    cases j with
    | zero =>
      have hd : dd = d := by
        simp only [List.getElem?_cons_zero, Option.some.injEq] at hj
        exact hj
      subst hd
      have hk : st.translation_results.length <
          (translationStep lang st idx dd).translation_results.length := by
        rw [g3]
        simp only [List.length_append, List.length_cons, List.length_nil]
        omega
      have hpp := translationLoop_prefix_preserved lang rest (idx + 1)
        (translationStep lang st idx dd) st.translation_results.length hk
      rw [g3, List.getElem?_concat_length] at hpp
      simpa using hpp
    | succ j' =>
      have hj' : rest[j']? = some d := by
        simpa using hj
      have hle' : (idx + 1) + rest.length ≤
          (translationStep lang st idx dd).ocr_results.length := by
        rw [g1]
        simp only [List.length_cons] at hle
        omega
      have := ih (idx + 1) (translationStep lang st idx dd) j' d hle' hj'
      rw [g1] at this
      have harith : (translationStep lang st idx dd).translation_results.length + j' =
          st.translation_results.length + (j' + 1) := by
        rw [g3]
        simp only [List.length_append, List.length_cons, List.length_nil]
        omega
      rw [harith] at this
      rw [this]
      have : idx + 1 + j' = idx + (j' + 1) := by omega
      rw [this]

/-- C10: after the translation phase of any batch,
`translation_results` and `ocr_results` have the same length: the
translation loop body runs exactly for the indices that have an OCR
entry (the `idx >= len(ocr_results)` guard skips the rest),
`translate_content` always returns a string, and the translated string
is appended before the `processing_steps[idx]` update whose `KeyError`
(possible after a skipped ingestion) is caught by the loop's `except`. -/
theorem translation_matches_ocr_length (lang : String) (docs : List DocRun) :
    (runBatch lang docs).translation_results.length =
      (runBatch lang docs).ocr_results.length := by
  have htr0 : (ocrPhase docs).translation_results = [] := by
    rw [ocrPhase, ocrLoop_translation]
    rfl
  have hle : (ocrPhase docs).ocr_results.length ≤ docs.length := by
    rw [ocrPhase, (ocrLoop_lengths docs 0 resetState).1]
    simpa [resetState] using countIngestOk_le docs
  have hL := translationLoop_length lang docs 0 (ocrPhase docs)
  have hocr := (translationLoop_ocr_preview lang docs 0 (ocrPhase docs)).1
  rw [runBatch, hL, htr0, hocr]
  simp only [List.length_nil, Nat.zero_add]
  omega

/-- C5: if the OCR capability returns zero pages, `ocr_processing`
returns the sentinel string "No result found." (not the empty string),
that sentinel is stored as the document's valid OCR result, and the
translation stage — when the batch reaches it — receives that literal
sentinel as its input text. -/
theorem zero_pages_sentinel_flows_to_translation
    (docs : List DocRun) (i : Nat) (d : DocRun) (lang : String)
    (hall : ∀ x ∈ docs, ingestOk x.ingest = true)
    (hi : docs[i]? = some d) (hocr : d.ocr = .success []) :
    ocr_processing d.ocr = "No result found." ∧
    (ocrPhase docs).ocr_results[i]? = some "No result found." ∧
    (runBatch lang docs).translation_results[i]? =
      some (translate_content d.chat "No result found." lang) := by
  have hsent : ocr_processing d.ocr = "No result found." := by
    rw [hocr]
    rfl
  have hres : (ocrPhase docs).ocr_results =
      docs.map (fun x => ocr_processing x.ocr) := by
    rw [ocrPhase, (ocrLoop_all_ok docs 0 resetState hall).1]
    simp [resetState]
  have hilt : i < docs.length := by
    rcases List.getElem?_eq_some_iff.mp hi with ⟨h, _⟩
    exact h
  refine ⟨hsent, ?_, ?_⟩
  · rw [hres]
    simp [hi, hsent]
  · have htr0 : (ocrPhase docs).translation_results = [] := by
      rw [ocrPhase, ocrLoop_translation]
      rfl
    have hlenN : (ocrPhase docs).ocr_results.length = docs.length := by
      rw [hres]
      simp
    have hg := translationLoop_getElem lang docs 0 (ocrPhase docs) i d
      (by rw [hlenN]; omega) hi
    rw [htr0] at hg
    have hgetD : (ocrPhase docs).ocr_results.getD (0 + i) "" = "No result found." := by
      rw [hres]
      simp [hi, hsent]
    rw [hgetD] at hg
    simpa [runBatch] using hg

/-- Witness for C5 on a concrete singleton batch whose OCR call returns
zero pages, translated to French by a chat oracle answering "bonjour". -/
theorem zero_pages_sentinel_witness :
    c5Docs[0]? = some ⟨.ok demoIngest, .success [], demoChat⟩ ∧
    (ocr_processing (OcrCallResult.success []) = "No result found." ∧
     (ocrPhase c5Docs).ocr_results[0]? = some "No result found." ∧
     (runBatch "French" c5Docs).translation_results[0]? =
       some (translate_content demoChat "No result found." "French")) := by
  refine ⟨rfl, ?_⟩
  exact zero_pages_sentinel_flows_to_translation c5Docs 0
    ⟨.ok demoIngest, .success [], demoChat⟩ "French"
    (by
      intro x hx
      simp only [c5Docs, List.mem_cons, List.not_mem_nil, or_false] at hx
      subst hx
      rfl)
    rfl rfl

theorem splitOnL_cons (pat : List Char) (c : Char) (rest : List Char) :
    splitOnL pat (c :: rest) =
      if pat.isPrefixOf (c :: rest) ∧ pat ≠ [] then
        [] :: splitOnL pat (rest.drop (pat.length - 1))
      else
        match splitOnL pat rest with
        | piece :: more => (c :: piece) :: more
        | [] => [[c]] := by
  rw [splitOnL]

theorem splitOnL_ne_nil (pat l : List Char) : splitOnL pat l ≠ [] := by
  cases l with
  | nil => simp [splitOnL]
  | cons c rest =>
    rw [splitOnL_cons]
    split
    · simp
    · split <;> simp

theorem intercalateL_cons_cons (sep x y : List Char) (rest : List (List Char)) :
    intercalateL sep (x :: y :: rest) = x ++ sep ++ intercalateL sep (y :: rest) := rfl

theorem pyReplaceGo_eq_replaceEvery (pat rep : List Char) :
    ∀ (fuel : Nat) (l : List Char), l.length ≤ fuel →
      pyReplaceGo pat rep fuel l = replaceEveryL pat rep l := by
  intro fuel
  induction fuel with
  | zero =>
    intro l hl
    have hnil : l = [] := List.length_eq_zero.mp (Nat.le_zero.mp hl)
    subst hnil
    simp [pyReplaceGo, replaceEveryL, splitOnL, intercalateL]
  | succ fuel ih =>
    intro l hl
    cases l with
    | nil => simp [pyReplaceGo, replaceEveryL, splitOnL, intercalateL]
    | cons c rest =>
      simp only [List.length_cons] at hl
      by_cases hp : pat.isPrefixOf (c :: rest) ∧ pat ≠ []
      · have hd : (rest.drop (pat.length - 1)).length ≤ fuel := by
          simp only [List.length_drop]
          omega
        simp only [pyReplaceGo]
        rw [if_pos hp, ih _ hd]
        rw [replaceEveryL, replaceEveryL, splitOnL_cons, if_pos hp]
        rcases hsp : splitOnL pat (rest.drop (pat.length - 1)) with _ | ⟨s, more⟩
        · exact absurd hsp (splitOnL_ne_nil pat _)
        · rw [intercalateL_cons_cons]
          simp
      · have hr : rest.length ≤ fuel := by omega
        simp only [pyReplaceGo]
        rw [if_neg hp, ih _ hr]
        rw [replaceEveryL, replaceEveryL, splitOnL_cons, if_neg hp]
        rcases hsp : splitOnL pat rest with _ | ⟨s, more⟩
        · exact absurd hsp (splitOnL_ne_nil pat rest)
        · cases more with
          | nil => rfl
          | cons t more' =>
            rw [intercalateL_cons_cons, intercalateL_cons_cons]
            simp

theorem pyReplaceL_eq_replaceEvery (pat rep l : List Char) :
    pyReplaceL pat rep l = replaceEveryL pat rep l :=
  pyReplaceGo_eq_replaceEvery pat rep l.length l (Nat.le_refl _)

theorem imgLoop_eq_imgLoopEvery :
    ∀ (imgs : List OcrImage) (idx : Nat) (md : List Char),
      imgLoop idx imgs md = imgLoopEvery idx imgs md := by
  intro imgs
  induction imgs with
  | nil => intro idx md; rfl
  | cons image rest ih =>
    intro idx md
    cases image with
    | mk ob =>
      cases ob with
      | none =>
        simp only [imgLoop, imgLoopEvery]
        rw [ih]
      | some b =>
        simp only [imgLoop, imgLoopEvery]
        rw [pyReplaceL_eq_replaceEvery, ih]

/-- C2 amended: for every OCR response page and every image attached to
it (in returned order), the code replaces EVERY occurrence — not only
the first — of the hardcoded placeholder token `img-{idx}.jpeg` (whose
extension, and the `image/jpeg` MIME of the inserted data reference,
do not come from the image's declared type) with the data reference
built from that image's own encoded bytes: per-page processing
coincides with the declarative split-at-token-and-rejoin semantics
`processPageEvery`. -/
theorem ocr_placeholder_rewriting_every_occurrence (page : OcrPage) :
    processPage page = processPageEvery page := by
  cases page with
  | mk md images =>
    cases images with
    | none => rfl
    | some imgs =>
      simp only [processPage, processPageEvery]
      rw [imgLoop_eq_imgLoopEvery]

/-- C2 counterexample: on a page whose Markdown holds the placeholder
`img-0.jpeg` twice with a single attached image, the code
(`ocr_processing`) rewrites both occurrences, while the claim's
first-remaining-occurrence policy (`specRecognizeFirst`, modelled from
the spec) leaves the second placeholder intact; the two disagree. -/
theorem ocr_placeholder_rewriting_cex :
    ocr_processing (.success [c2Page]) =
      "data:image/jpeg;base64,QUJD and data:image/jpeg;base64,QUJD" ∧
    specRecognizeFirst (.success [c2Page]) =
      "data:image/jpeg;base64,QUJD and img-0.jpeg" ∧
    ocr_processing (.success [c2Page]) ≠ specRecognizeFirst (.success [c2Page]) := by
  refine ⟨by decide, by decide, by decide⟩

theorem hexVal_hexDigit : ∀ n : Fin 16, hexVal (hexDigitChar n.val) = some n.val := by
  decide

theorem parseStrBody_u (m : Nat) (hm : m < 32) (tail : List Char) :
    parseStrBody ('\\' :: 'u' :: '0' :: '0' ::
        hexDigitChar (m / 16) :: hexDigitChar (m % 16) :: tail) =
      (parseStrBody tail).map (fun p => (Char.ofNat m :: p.1, p.2)) := by
  have hv1 : hexVal (hexDigitChar (m / 16)) = some (m / 16) :=
    hexVal_hexDigit ⟨m / 16, by omega⟩
  have hv2 : hexVal (hexDigitChar (m % 16)) = some (m % 16) :=
    hexVal_hexDigit ⟨m % 16, by omega⟩
  have hv0 : hexVal '0' = some 0 := rfl
  rw [parseStrBody.eq_def]
  simp only [hv0, hv1, hv2]
  norm_num
  rw [if_neg (show ¬('\\' = '"') by decide)]
  have hn : m / 16 * 16 + m % 16 = m := by omega
  rw [hn, if_pos (show m < 55296 by omega)]
  cases hpt : parseStrBody tail with
  | none => rfl
  | some p => rfl

theorem parseStrBody_escChar (c : Char) (tail : List Char) :
    parseStrBody (escChar c ++ tail) =
      (parseStrBody tail).map (fun p => (c :: p.1, p.2)) := by
  by_cases h1 : c = '"'
  · subst h1
    cases hpt : parseStrBody tail with
    | none =>
      rw [show escChar '"' ++ tail = '\\' :: '"' :: tail from rfl, parseStrBody.eq_def]
      simp [escDecode, hpt]
    | some p =>
      rw [show escChar '"' ++ tail = '\\' :: '"' :: tail from rfl, parseStrBody.eq_def]
      simp [escDecode, hpt]
  by_cases h2 : c = '\\'
  · subst h2
    cases hpt : parseStrBody tail with
    | none =>
      rw [show escChar '\\' ++ tail = '\\' :: '\\' :: tail from rfl, parseStrBody.eq_def]
      simp [escDecode, hpt]
    | some p =>
      rw [show escChar '\\' ++ tail = '\\' :: '\\' :: tail from rfl, parseStrBody.eq_def]
      simp [escDecode, hpt]
  by_cases h3 : c = '\n'
  · subst h3
    cases hpt : parseStrBody tail with
    | none =>
      rw [show escChar '\n' ++ tail = '\\' :: 'n' :: tail from rfl, parseStrBody.eq_def]
      simp [escDecode, hpt]
    | some p =>
      rw [show escChar '\n' ++ tail = '\\' :: 'n' :: tail from rfl, parseStrBody.eq_def]
      simp [escDecode, hpt]
  by_cases h4 : c = '\r'
  · subst h4
    cases hpt : parseStrBody tail with
    | none =>
      rw [show escChar '\r' ++ tail = '\\' :: 'r' :: tail from rfl, parseStrBody.eq_def]
      simp [escDecode, hpt]
    | some p =>
      rw [show escChar '\r' ++ tail = '\\' :: 'r' :: tail from rfl, parseStrBody.eq_def]
      simp [escDecode, hpt]
  by_cases h5 : c = '\t'
  · subst h5
    cases hpt : parseStrBody tail with
    | none =>
      rw [show escChar '\t' ++ tail = '\\' :: 't' :: tail from rfl, parseStrBody.eq_def]
      simp [escDecode, hpt]
    | some p =>
      rw [show escChar '\t' ++ tail = '\\' :: 't' :: tail from rfl, parseStrBody.eq_def]
      simp [escDecode, hpt]
  by_cases h6 : c = Char.ofNat 8
  · subst h6
    cases hpt : parseStrBody tail with
    | none =>
      rw [show escChar (Char.ofNat 8) ++ tail = '\\' :: 'b' :: tail from rfl, parseStrBody.eq_def]
      simp [escDecode, hpt]
    | some p =>
      rw [show escChar (Char.ofNat 8) ++ tail = '\\' :: 'b' :: tail from rfl, parseStrBody.eq_def]
      simp [escDecode, hpt]
  by_cases h7 : c = Char.ofNat 12
  · subst h7
    cases hpt : parseStrBody tail with
    | none =>
      rw [show escChar (Char.ofNat 12) ++ tail = '\\' :: 'f' :: tail from rfl, parseStrBody.eq_def]
      simp [escDecode, hpt]
    | some p =>
      rw [show escChar (Char.ofNat 12) ++ tail = '\\' :: 'f' :: tail from rfl, parseStrBody.eq_def]
      simp [escDecode, hpt]
  by_cases h8 : c.toNat < 32
  · rw [escChar, if_neg h1, if_neg h2, if_neg h3, if_neg h4, if_neg h5, if_neg h6,
      if_neg h7, if_pos h8]
    simp only [List.cons_append, List.nil_append]
    rw [parseStrBody_u c.toNat h8 tail, Char.ofNat_toNat]
  · rw [escChar, if_neg h1, if_neg h2, if_neg h3, if_neg h4, if_neg h5, if_neg h6,
      if_neg h7, if_neg h8]
    simp only [List.cons_append, List.nil_append]
    cases hpt : parseStrBody tail with
    | none =>
      rw [parseStrBody.eq_def]
      simp [h1, h2, h8, hpt]
    | some p =>
      rw [parseStrBody.eq_def]
      simp [h1, h2, h8, hpt]

theorem parseStrBody_jsonEscape (s : List Char) :
    ∀ (tail : List Char),
      parseStrBody (jsonEscape s ++ '"' :: tail) = some (s, tail) := by
  induction s with
  | nil =>
    intro tail
    rw [show jsonEscape [] ++ '"' :: tail = '"' :: tail from rfl, parseStrBody.eq_def]
    simp
  | cons c rest ih =>
    intro tail
    rw [jsonEscape, List.append_assoc, parseStrBody_escChar, ih]
    rfl

/-- C8: serializing any translated result string with the JSON export
(`json.dumps` with a single `"ocr_result"` key, embedded as
`dumpsExportL`) and parsing that document back (`parseExport`,
modelling `json.loads` on the produced shape) recovers exactly the
original string. -/
theorem json_export_roundtrip (s : String) :
    parseExport (dumpsExportL s.data) = some s.data := by
  have hval := parseStrBody_jsonEscape s.data ('\n' :: [rbrace])
  have hkey : ∀ Y : List Char,
      parseStrBody ('o' :: 'c' :: 'r' :: '_' :: 'r' :: 'e' :: 's' :: 'u' :: 'l' :: 't' :: '"' :: Y) =
        some (['o', 'c', 'r', '_', 'r', 'e', 's', 'u', 'l', 't'], Y) :=
    fun Y => parseStrBody_jsonEscape "ocr_result".data Y
  have hkey2 : ∀ Y : List Char,
      parseStrBody ("ocr_result".data ++ '"' :: Y) = some ("ocr_result".data, Y) := by
    intro Y
    have hje : jsonEscape "ocr_result".data = "ocr_result".data := rfl
    have h := parseStrBody_jsonEscape "ocr_result".data Y
    rw [hje] at h
    exact h
  simp only [parseExport, dumpsExportL, hkey2,
    show ∀ X : List Char, skipWs (lbrace :: X) = lbrace :: X from fun X => rfl,
    show ∀ X : List Char, expectChar lbrace (lbrace :: X) = some X from fun X => rfl,
    show ∀ X : List Char, skipWs ('\n' :: ' ' :: ' ' :: '"' :: X) = '"' :: X from fun X => rfl,
    show ∀ X : List Char, expectChar '"' ('"' :: X) = some X from fun X => rfl,
    hkey,
    show ∀ X : List Char, skipWs (':' :: X) = ':' :: X from fun X => rfl,
    show ∀ X : List Char, expectChar ':' (':' :: X) = some X from fun X => rfl,
    show ∀ X : List Char, skipWs (' ' :: '"' :: X) = '"' :: X from fun X => rfl,
    hval,
    show skipWs ('\n' :: [rbrace]) = [rbrace] from rfl,
    show expectChar rbrace [rbrace] = some [] from rfl,
    show skipWs ([] : List Char) = [] from rfl]
  simp

end DocTranslator
